import Mathlib

/-!
Verification of the coordination-space planner (src/CoordinationSpace.py).

The source is a Python 2 script: trajectory normalization, pairwise
circle-circle collision checks, an N-dimensional coordination-space builder,
an A* search over the built grid and a path-reconstruction walk.  This file
is a shallow embedding of those functions.

Numbers.  The script computes with Python floats; we idealize them as exact
real numbers.  Every float the search ever manipulates has the form
`a + sqrt r` with `a, r` rational (heuristic values are square roots of
rational sums of squares, `f = g + h` adds an integer).  So the search part
of the embedding computes over `QSqrt`, an exact pair representation of
`a + sqrt r`, with a decidable order that is proved below to agree with the
real order.  That keeps the whole search executable, so concrete runs can be
settled by `decide`/`rfl`.  The trajectory and collision functions use `ℝ`
and `Real.sqrt` directly.
-/

/-- Exact representation of the real number `a + Real.sqrt r` (`a, r : ℤ`).
All floats of the search (`h`, `f` of A* nodes) have this shape: heuristic
values are square roots of integer sums of squares and `f = g + h` adds the
integer path cost.  Integer components keep every comparison kernel-computable. -/
structure QSqrt where
  a : ℤ
  r : ℤ
deriving DecidableEq, Repr

/-- The real number a `QSqrt` stands for. -/
noncomputable def QSqrt.val (x : QSqrt) : ℝ := x.a + Real.sqrt x.r

/-- Decidable order on `QSqrt` values, agreeing with `≤` on the reals they
stand for (`leb_iff` below).  Writing `p, q` for the radicands clamped at 0
and `d` for the difference of rational parts, `val x ≤ val y` unfolds to
`sqrt p ≤ d + sqrt q`, decided by clearing the square roots. -/
def QSqrt.leb (x y : QSqrt) : Bool :=
  let p := max x.r 0
  let q := max y.r 0
  let d := y.a - x.a
  let c := p - d ^ 2 - q
  let e := 2 * d
  (decide (0 ≤ d) || decide (d ^ 2 ≤ q)) &&
    (if 0 ≤ e then decide (c ≤ 0) || decide (c ^ 2 ≤ e ^ 2 * q)
     else decide (c ≤ 0) && decide (e ^ 2 * q ≤ c ^ 2))

/-- Strict order: Python's `x < y` on the represented floats. -/
def QSqrt.ltb (x y : QSqrt) : Bool := !(leb y x)

/-- Value equality: Python's `x == y` on the represented floats. -/
def QSqrt.eqb (x y : QSqrt) : Bool := leb x y && leb y x

/-- Adding an integer to a `QSqrt` number: the source's `g + h` where `g` is
the integer path cost and `h` a square root. -/
def QSqrt.intAdd (n : ℤ) (x : QSqrt) : QSqrt := ⟨n + x.a, x.r⟩

/-- A cell of the coordination space.  The source represents it as the Python
list `[flag, 0, 0, 0, [0, 0]]`: slot 0 is the collision flag (0 free,
1 blocked), slots 1-3 are reused by the search as `g`, `h`, `f`, slot 4 as
the parent coordinates. -/
structure Cell where
  flag : ℤ
  g : ℤ
  h : QSqrt
  f : QSqrt
  parent : List ℤ
deriving DecidableEq, Repr

instance : Inhabited Cell := ⟨⟨0, 0, ⟨0, 0⟩, ⟨0, 0⟩, []⟩⟩

/-- A free cell as the builder creates it: `[0, 0, 0, 0, [0, 0]]`. -/
def freeCell : Cell := ⟨0, 0, ⟨0, 0⟩, ⟨0, 0⟩, [0, 0]⟩

/-- A blocked cell as the builder creates it: `[1, 0, 0, 0, [0, 0]]`. -/
def blockedCell : Cell := ⟨1, 0, ⟨0, 0⟩, ⟨0, 0⟩, [0, 0]⟩

/-- The two-robot coordination space as the search code reads it:
`cSpace[i][j]` is a cell. -/
def Grid := List (List Cell)

/-- Python indexing `cSpace[i][j]` for in-bounds, nonnegative `i`, `j` (the
search checks bounds before every such access). -/
def cellAt2 (cs : Grid) (i j : ℤ) : Cell :=
  ((List.getD cs i.toNat []).getD j.toNat default)

/-- Source `distTwoPointsIn3D` (despite the name it is 2-dimensional: the
`z` handling is commented out in the source): `sqrt((x2-x1)^2 + (y2-y1)^2)`,
represented exactly.  The search only ever calls it on integer grid
coordinates and dimension lengths, so the embedding takes integers. -/
def distTwoPointsIn3D (x1 y1 x2 y2 : ℤ) : QSqrt :=
  ⟨0, (x2 - x1) ^ 2 + (y2 - y1) ^ 2⟩

/-- Source `costToGo`: the heuristic reads the point's first two coordinates
and measures to `(len(cSpace), len(cSpace[0]))` — the grid's dimension
lengths, not the last valid index. -/
def costToGo (cs : Grid) (point : List ℤ) : QSqrt :=
  distTwoPointsIn3D (point.getD 0 0) (point.getD 1 0)
    (cs.length : ℤ) ((List.getD cs 0 []).length : ℤ)

/-- Cartesian product of lists in `itertools.product` order (leftmost factor
varies slowest). -/
def pyProduct : List (List ℤ) → List (List ℤ)
  | [] => [[]]
  | xs :: rest => xs.flatMap fun x => (pyProduct rest).map fun t => x :: t

/-- The source guard `cSpace[neighbor[0]][neighbor[1]] != 1` compares a cell
— a Python list — against the integer 1.  A list never equals an integer, so
in the source this test is true for every cell, blocked or not (the intended
test was on the cell's first element).  The embedding keeps that behaviour. -/
def cellNeOne (_ : Cell) : Bool := true

/-- Source `findNeighbors`: all tuples offset by -1/0/+1 in every
coordinate, then filtered: bounds are checked on the first two coordinates
only, the point itself is dropped, and the `!= 1` test above (vacuously
true) is applied. -/
def findNeighbors (cs : Grid) (point : List ℤ) : List (List ℤ) :=
  let combinations := point.map fun d => [d - 1, d, d + 1]
  let neighbors := pyProduct combinations
  neighbors.filter fun nb =>
    (decide (0 ≤ nb.getD 0 0) && decide (nb.getD 0 0 < (cs.length : ℤ)) &&
      decide (0 ≤ nb.getD 1 0) &&
      decide (nb.getD 1 0 < ((List.getD cs 0 []).length : ℤ))) &&
    (decide (nb ≠ point) && cellNeOne (cellAt2 cs (nb.getD 0 0) (nb.getD 1 0)))

/-- An A* node.  The source represents it as the Python list
`[state, g, h, f, parent, [x, y]]` (slot layout documented in
`aStarSearch`). -/
structure Node where
  state : ℤ
  g : ℤ
  h : QSqrt
  f : QSqrt
  parent : List ℤ
  coords : List ℤ
deriving DecidableEq, Repr

/-- Source `skipSuccessor`: scan the list for a node with the same
coordinates (slot 5) whose slot 3 — the `f` value — is less or equal. -/
def skipSuccessor (l : List Node) (successor : Node) : Bool :=
  l.any fun node => node.coords == successor.coords && QSqrt.leb node.f successor.f

/-- Python list comparison on integer lists: lexicographic, a strict prefix
is smaller. -/
def listLtbZ : List ℤ → List ℤ → Bool
  | [], [] => false
  | [], _ :: _ => true
  | _ :: _, [] => false
  | a :: as, b :: bs => if a < b then true else if b < a then false else listLtbZ as bs

/-- Python's `<` between two node lists `[state, g, h, f, parent, coords]`:
lexicographic, comparing floats by value.  This is the order `heapq` uses on
the raw node lists — so the heap orders by the cell flag first, then `g`,
then `h`, and only then `f`. -/
def nodeLtb (m n : Node) : Bool :=
  if m.state ≠ n.state then decide (m.state < n.state)
  else if m.g ≠ n.g then decide (m.g < n.g)
  else if !(QSqrt.eqb m.h n.h) then QSqrt.ltb m.h n.h
  else if !(QSqrt.eqb m.f n.f) then QSqrt.ltb m.f n.f
  else if m.parent ≠ n.parent then listLtbZ m.parent n.parent
  else if m.coords ≠ n.coords then listLtbZ m.coords n.coords
  else false

/-- Functional model of `heapq.heappop`: remove a least element (w.r.t. the
Python node order) from the open list.  `heapq` always pops a smallest
element; elements it could tie-break between are equal as values, so taking
the leftmost minimum is value-faithful. -/
def popMin : List Node → Option (Node × List Node)
  | [] => none
  | x :: xs =>
    match popMin xs with
    | none => some (x, [])
    | some (m, rest) => if nodeLtb m x then some (m, x :: rest) else some (x, xs)

/-- The mutable state of `aStarSearch`'s loop.  `heapq.heappush` is modelled
as appending: only the multiset of nodes matters — pops always select a
minimum, and `skipSuccessor` scans the whole list. -/
structure SearchState where
  openList : List Node
  closedList : List Node
deriving DecidableEq, Repr

/-- What `aStarSearch` returns: either the raw successor coordinate list at
the goal test, or the string "could not find path". -/
inductive SearchResult where
  | found : List ℤ → SearchResult
  | noPath : SearchResult
deriving DecidableEq, Repr

/-- One outcome of processing a popped node. -/
inductive StepRes where
  | done : SearchResult → StepRes
  | next : SearchState → StepRes
deriving DecidableEq

/-- The start node: `cSpace[0][0]` with `[0, 0]` appended — the cell's slots
become `state, g, h, f, parent` and the appended list the coordinates. -/
def startNode (cs : Grid) : Node :=
  let c := cellAt2 cs 0 0
  ⟨c.flag, c.g, c.h, c.f, c.parent, [0, 0]⟩

/-- The body of `aStarSearch`'s `for successor in findNeighbors(q[5])` loop:
goal test on the raw coordinates first (returning them unchanged), then
node construction and the `skipSuccessor` dominance test against the live
open and closed lists. -/
def processSuccessors (cs : Grid) (q : Node) :
    List (List ℤ) → SearchState → Option (List ℤ) × SearchState
  | [], st => (none, st)
  | s :: rest, st =>
    if s.getD 0 0 = (cs.length : ℤ) - 1 ∧
        s.getD 1 0 = ((List.getD cs 0 []).length : ℤ) - 1 then
      (some s, st)
    else
      let g := q.g + 1
      let h := costToGo cs s
      let succ : Node :=
        ⟨(cellAt2 cs (s.getD 0 0) (s.getD 1 0)).flag, g, h, QSqrt.intAdd g h,
          q.coords, s⟩
      if !(skipSuccessor st.openList succ) && !(skipSuccessor st.closedList succ) then
        processSuccessors cs q rest ⟨st.openList ++ [succ], st.closedList⟩
      else
        processSuccessors cs q rest st

/-- One iteration of `aStarSearch`'s `while openList` loop. -/
def searchStep (cs : Grid) (st : SearchState) : StepRes :=
  match popMin st.openList with
  | none => .done .noPath
  | some (q, rest) =>
    match processSuccessors cs q (findNeighbors cs q.coords) ⟨rest, st.closedList⟩ with
    | (some goal, _) => .done (.found goal)
    | (none, st') => .next ⟨st'.openList, st'.closedList ++ [q]⟩

/-- Fuelled run of the search loop from a given state (`none` = fuel ran
out; every concrete run below is given enough fuel). -/
def searchRun (cs : Grid) : ℕ → SearchState → Option SearchResult
  | 0, _ => none
  | fuel + 1, st =>
    match searchStep cs st with
    | .done r => some r
    | .next st' => searchRun cs fuel st'

/-- Source `aStarSearch`: push the start node and loop. -/
def aStarSearch (cs : Grid) (fuel : ℕ) : Option SearchResult :=
  searchRun cs fuel ⟨[startNode cs], []⟩

/-! Concrete two-robot coordination spaces used as inputs below. -/

/-- 2×2 grid whose cell (0,1) is blocked. -/
def gridB01 : Grid := [[freeCell, blockedCell], [freeCell, freeCell]]

/-- 2×2 grid whose goal cell (1,1) is blocked, all others free. -/
def gridGoalBlocked : Grid := [[freeCell, freeCell], [freeCell, blockedCell]]

/-- 2×2 grid with every cell free. -/
def gridFree : Grid := [[freeCell, freeCell], [freeCell, freeCell]]

/-- 2×3 grid whose cell (1,1) is blocked. -/
def grid23 : Grid := [[freeCell, freeCell, freeCell], [freeCell, blockedCell, freeCell]]

/-- Euclidean distance between two integer points, as the spec reads:
"Euclidean distance from the node's coordinates ... to the grid's far
corner". -/
noncomputable def specEuclidDist (x1 y1 x2 y2 : ℤ) : ℝ :=
  Real.sqrt (((x2 - x1 : ℤ) : ℝ) ^ 2 + ((y2 - y1 : ℤ) : ℝ) ^ 2)

/-- The value of a node for ordering purposes: Python compares the node
lists `[state, g, h, f, parent, coords]` lexicographically, floats by value. -/
noncomputable def nodeKey (n : Node) : ℤ ×ₗ (ℤ ×ₗ (ℝ ×ₗ (ℝ ×ₗ (List ℤ ×ₗ List ℤ)))) :=
  toLex (n.state, toLex (n.g, toLex (n.h.val, toLex (n.f.val, toLex (n.parent, n.coords)))))

/-- The real-valued Python order on nodes: what `heapq` sorts by. -/
def realNodeLt (m n : Node) : Prop := nodeKey m < nodeKey n

/-- First node pushed while expanding (0,0) on `grid23`: coordinates (0,1),
`g = 1`, `h = sqrt 8`, `f = 1 + sqrt 8`. -/
def nodeA : Node := ⟨0, 1, ⟨0, 8⟩, ⟨1, 8⟩, [0, 0], [0, 1]⟩

/-- Second node pushed: coordinates (1,0), `h = sqrt 10`. -/
def nodeB : Node := ⟨0, 1, ⟨0, 10⟩, ⟨1, 10⟩, [0, 0], [1, 0]⟩

/-- Third node pushed: coordinates (1,1), a blocked cell (flag 1),
`h = sqrt 5`, `f = 1 + sqrt 5` — the least `f` of the three. -/
def nodeC : Node := ⟨1, 1, ⟨0, 5⟩, ⟨1, 5⟩, [0, 0], [1, 1]⟩

/-- A successor node regenerating coordinates (0,1) with the worse cost
`g = 2`, as built by the search on `grid23`. -/
def nodeA2 : Node := ⟨0, 2, ⟨0, 8⟩, ⟨2, 8⟩, [1, 0], [0, 1]⟩

/-! The coordination-space builder and the collision classifier, for C10.
These work on robot trajectories with real coordinates and use `Real.sqrt`
directly (no concrete execution is needed for them). -/

/-- One trajectory state `[velocity, x, y, orientation]`. -/
structure RobotState where
  v : ℝ
  x : ℝ
  y : ℝ
  theta : ℝ

instance : Inhabited RobotState := ⟨⟨0, 0, 0, 0⟩⟩

/-- Source `checkCollisions`: robots `A1` at state `s1` and `A2` at state
`s2` collide iff the Euclidean distance of their positions is strictly less
than `2 * robotSize`. -/
def checkCollisions (robots : List (List RobotState)) (rSize : ℝ)
    (A1 s1 A2 s2 : ℕ) : Prop :=
  Real.sqrt ((((robots.getD A1 []).getD s1 default).x -
        ((robots.getD A2 []).getD s2 default).x) ^ 2 +
      (((robots.getD A1 []).getD s1 default).y -
        ((robots.getD A2 []).getD s2 default).y) ^ 2) < 2 * rSize

/-- The collision scan of `createCoordinationSpace`'s base case: the double
loop `for A1 ... for A2 in range(A1+1, ...)` with its early exit sets
`collision` exactly when some ordered pair `A1 < A2` collides. -/
def collisionFound (robots : List (List RobotState)) (rSize : ℝ)
    (config : List ℕ) : Prop :=
  ∃ A1 A2, A1 < A2 ∧ A2 < config.length ∧
    checkCollisions robots rSize A1 (config.getD A1 0) A2 (config.getD A2 0)

/-- The nested-list result of the recursive builder: the base case returns a
list of cells, the recursive case a list of sub-arrays. -/
inductive CSpace where
  | cells : List Cell → CSpace
  | dims : List CSpace → CSpace

open Classical in
/-- Source `createCoordinationSpace(n, depth, configuration)`, rewritten
structurally on the suffix `n[depth:]` of the dimension list (the source
recursion only ever looks at `n[depth]` and increments `depth`; the base
case `depth == len(n) - 1` is the one-dimension-left case).  Appending `i`
and popping it around each recursive call is modelled by passing
`config ++ [i]`.  A call with an empty dimension list would raise
`IndexError` in the source and returns an empty level here. -/
noncomputable def createCoordinationSpace (robots : List (List RobotState))
    (rSize : ℝ) : List ℕ → List ℕ → CSpace
  | [], _ => CSpace.dims []
  | [d], config =>
    CSpace.cells ((List.range d).map fun i =>
      if collisionFound robots rSize (config ++ [i]) then blockedCell else freeCell)
  | d :: d2 :: ds, config =>
    CSpace.dims ((List.range d).map fun i =>
      createCoordinationSpace robots rSize (d2 :: ds) (config ++ [i]))

/-- Source `createMatrix`: dimension sizes are the trajectory lengths. -/
noncomputable def createMatrix (robots : List (List RobotState)) (rSize : ℝ) : CSpace :=
  createCoordinationSpace robots rSize (robots.map List.length) []

/-- Indexing a built coordination space by a joint configuration. -/
def cellOf : CSpace → List ℕ → Option Cell
  | CSpace.cells cs, [i] => cs[i]?
  | CSpace.dims subs, i :: rest => (subs[i]?).bind fun sub => cellOf sub rest
  | _, _ => none

/-! Path reconstruction (`addPath`), for C7 and C2.  The function indexes
Python values dynamically (`parent[5[0]]`), so this part models Python
runtime values and the errors indexing can raise. -/

/-- Python runtime values reachable in `addPath`. -/
inductive PyVal where
  | vInt : ℤ → PyVal
  | vFloat : QSqrt → PyVal
  | vStr : String → PyVal
  | vList : List PyVal → PyVal

/-- Python runtime errors the embedded fragments can raise. -/
inductive PyErr where
  | indexError
  | typeError
  | zeroDivisionError
deriving DecidableEq, Repr

mutual

/-- Python `==` on runtime values (numbers by value, lists elementwise). -/
def pyEqb : PyVal → PyVal → Bool
  | .vInt a, .vInt b => a == b
  | .vInt a, .vFloat q => QSqrt.eqb ⟨a, 0⟩ q
  | .vFloat q, .vInt b => QSqrt.eqb q ⟨b, 0⟩
  | .vFloat a, .vFloat b => QSqrt.eqb a b
  | .vStr a, .vStr b => a == b
  | .vList as, .vList bs => pyEqbList as bs
  | _, _ => false

/-- Python `==` on lists: equal length and equal elements. -/
def pyEqbList : List PyVal → List PyVal → Bool
  | [], [] => true
  | a :: as, b :: bs => pyEqb a b && pyEqbList as bs
  | _, _ => false

end

/-- Python subscription `v[i]`: lists and strings accept integer indices
(negative ones count from the end); anything else raises `TypeError`, an
out-of-range index raises `IndexError`. -/
def pyIndex (v idx : PyVal) : Except PyErr PyVal :=
  match v, idx with
  | .vList xs, .vInt i =>
    let j := if i < 0 then i + xs.length else i
    if 0 ≤ j ∧ j < (xs.length : ℤ) then .ok (xs.getD j.toNat (.vInt 0))
    else .error .indexError
  | .vStr s, .vInt i =>
    let cs := s.toList
    let j := if i < 0 then i + cs.length else i
    if 0 ≤ j ∧ j < (cs.length : ℤ) then
      .ok (.vStr (String.mk [cs.getD j.toNat ' ']))
    else .error .indexError
  | _, _ => .error .typeError

/-- Python subscript assignment `v[i] = x` as a functional update (the
source mutates the list in place; no alias is read afterwards, so the
functional update is value-equivalent). -/
def pySetIndex (v idx x : PyVal) : Except PyErr PyVal :=
  match v, idx with
  | .vList xs, .vInt i =>
    let j := if i < 0 then i + xs.length else i
    if 0 ≤ j ∧ j < (xs.length : ℤ) then .ok (.vList (xs.set j.toNat x))
    else .error .indexError
  | _, _ => .error .typeError

/-- One iteration of `addPath`'s `while parent[5] != [0, 0]` loop: the guard,
then the marking statement `cSpace[parent[5[0]]][parent[5[1]]][0] = 2`
(subscripts evaluated left to right — `5[0]` first), then `parent =
parent[4]`.  Returns `none` when the guard fails and the loop exits. -/
def addPathStep (cs parent : PyVal) : Except PyErr (Option (PyVal × PyVal)) := do
  let cond ← pyIndex parent (.vInt 5)
  if pyEqb cond (.vList [.vInt 0, .vInt 0]) then
    return none
  else
    let i0 ← pyIndex (.vInt 5) (.vInt 0)
    let a ← pyIndex parent i0
    let row ← pyIndex cs a
    let i1 ← pyIndex (.vInt 5) (.vInt 1)
    let b ← pyIndex parent i1
    let cell ← pyIndex row b
    let cell2 ← pySetIndex cell (.vInt 0) (.vInt 2)
    let row2 ← pySetIndex row b cell2
    let cs2 ← pySetIndex cs a row2
    let parent2 ← pyIndex parent (.vInt 4)
    return some (cs2, parent2)

/-- Result of running `addPath`. -/
inductive AddPathRes where
  | finished : PyVal → AddPathRes
  | err : PyErr → AddPathRes
  | fuelOut : AddPathRes

/-- Source `addPath`, fuelled. -/
def addPath (cs parent : PyVal) : ℕ → AddPathRes
  | 0 => .fuelOut
  | fuel + 1 =>
    match addPathStep cs parent with
    | .error e => .err e
    | .ok none => .finished cs
    | .ok (some (cs2, p2)) => addPath cs2 p2 fuel

/-- What `aStarSearch` hands to `addPath`, as a Python value: on success the
raw coordinate list, on failure the string "could not find path". -/
def pyOfSearchResult : SearchResult → PyVal
  | .found coords => .vList (coords.map PyVal.vInt)
  | .noPath => .vStr "could not find path"

/-- A cell as the Python list `[flag, g, h, f, parent]`. -/
def pyOfCell (c : Cell) : PyVal :=
  .vList [.vInt c.flag, .vInt c.g, .vFloat c.h, .vFloat c.f,
    .vList (c.parent.map PyVal.vInt)]

/-- A grid as the nested Python list `cSpace`. -/
def pyOfGrid (cs : Grid) : PyVal :=
  .vList (cs.map fun row => .vList (row.map pyOfCell))

/-! Trajectory resampling (`findTrajectoryLength`, `normalizeTrajectory`),
for C8 and C9, over `ℝ` with `Real.sqrt`. -/

/-- The accumulation loop of `findTrajectoryLength`: sum of the Euclidean
distances of consecutive states, starting from `(px, py)`.  The source seeds
`(px, py)` with the first state, so the first step contributes 0. -/
noncomputable def trajLengthGo (px py : ℝ) : List RobotState → ℝ
  | [] => 0
  | s :: rest => Real.sqrt ((s.x - px) ^ 2 + (s.y - py) ^ 2) + trajLengthGo s.x s.y rest

/-- Source `findTrajectoryLength`: total arc length of the polyline. -/
noncomputable def findTrajectoryLength (traj : List RobotState) : ℝ :=
  trajLengthGo (traj.headD default).x (traj.headD default).y traj

/-- Source `normalizeTrajectory`'s inner `while distOldStates >
distNewStates` loop, fuelled: it emits interpolated points on the current
segment (from `(px, py)` to `(cx, cy)`, carrying the current state's speed
`sv` and orientation `sθ`) until `distNewStates` catches up.  `distOld` is
fixed during the loop; only `distNew` advances by `I` per emission.  (The
source's `dX /= length` would divide by zero on a degenerate segment, but
the loop guard is never true then, so the branch is unreachable.) -/
noncomputable def emitLoop (sv sθ cx cy px py I distOld : ℝ) :
    ℕ → ℝ → List RobotState → ℝ × List RobotState
  | 0, distNew, acc => (distNew, acc)
  | fuel + 1, distNew, acc =>
    if distOld > distNew then
      let dX := cx - px
      let dY := cy - py
      let length := Real.sqrt (dX ^ 2 + dY ^ 2)
      let dX1 := dX / length
      let dY1 := dY / length
      let distance := distOld - distNew
      let addDiff := length - distance
      let newX := px + dX1 * addDiff
      let newY := py + dY1 * addDiff
      emitLoop sv sθ cx cy px py I distOld fuel (distNew + I) (acc ++ [⟨sv, newX, newY, sθ⟩])
    else (distNew, acc)

/-- Source `normalizeTrajectory`'s outer `for state in robots[robot]` loop:
advance `distOldStates` by the segment length, run the catch-up loop, then
move the previous point. -/
noncomputable def normLoop (fuel : ℕ) (I : ℝ) :
    List RobotState → ℝ → ℝ → ℝ → ℝ → List RobotState → List RobotState
  | [], _, _, _, _, acc => acc
  | s :: rest, distOld, distNew, px, py, acc =>
    let distOld2 := distOld + Real.sqrt ((s.x - px) ^ 2 + (s.y - py) ^ 2)
    let p := emitLoop s.v s.theta s.x s.y px py I distOld2 fuel distNew acc
    normLoop fuel I rest distOld2 p.1 s.x s.y p.2

open Classical in
/-- Source `normalizeTrajectory`: `intervals = floor(length / (speed *
0.5))`, `intervalLength = length / intervals`, then the resampling loops.
Python raises `ZeroDivisionError` when a divisor is zero; the embedding
returns that error at exactly those divisions (the source has no guard). -/
noncomputable def normalizeTrajectory (fuel : ℕ) (traj : List RobotState) :
    Except PyErr (List RobotState) :=
  let time : ℝ := 1 / 2
  let trajectoryLength := findTrajectoryLength traj
  let speed := (traj.headD default).v
  if speed * time = 0 then .error .zeroDivisionError
  else
    let intervals : ℤ := ⌊trajectoryLength / (speed * time)⌋
    if intervals = 0 then .error .zeroDivisionError
    else
      let intervalLength := trajectoryLength / (intervals : ℝ)
      .ok (normLoop fuel intervalLength traj 0 0
        (traj.headD default).x (traj.headD default).y [])

/-- A straight unit-speed trajectory from (0,0) to (1,0). -/
def trajLine : List RobotState := [⟨1, 0, 0, 0⟩, ⟨1, 1, 0, 0⟩]

/-- A trajectory of total arc length zero (both states at the origin). -/
def trajZero : List RobotState := [⟨1, 0, 0, 0⟩, ⟨1, 0, 0, 0⟩]

/-- A zero-speed trajectory of positive arc length. -/
def trajV0 : List RobotState := [⟨0, 0, 0, 0⟩, ⟨0, 3, 4, 0⟩]

/-- Clamping the radicand at 0 does not change the square root. -/
lemma QSqrt.sqrt_intCast_max (r : ℤ) :
    Real.sqrt ((max r 0 : ℤ) : ℝ) = Real.sqrt (r : ℝ) := by
  rcases le_total r 0 with h | h
  · have h0 : ((r : ℤ) : ℝ) ≤ 0 := by exact_mod_cast h
    rw [max_eq_right h, Real.sqrt_eq_zero_of_nonpos h0]
    simp
  · rw [max_eq_left h]

/-- Deciding `0 ≤ d + sqrt q` for `0 ≤ q`. -/
lemma QSqrt.nonneg_add_sqrt_iff (d q : ℝ) (hq : 0 ≤ q) :
    0 ≤ d + Real.sqrt q ↔ 0 ≤ d ∨ d ^ 2 ≤ q := by
  constructor
  · intro h
    by_contra hcon
    push_neg at hcon
    obtain ⟨hd, hdq⟩ := hcon
    have h1 : Real.sqrt q < Real.sqrt (d ^ 2) := Real.sqrt_lt_sqrt hq hdq
    rw [Real.sqrt_sq_eq_abs, abs_of_neg hd] at h1
    linarith
  · rintro (hd | hdq)
    · have := Real.sqrt_nonneg q
      linarith
    · have h1 : |d| ≤ Real.sqrt q := Real.abs_le_sqrt hdq
      have h2 : -d ≤ |d| := neg_le_abs d
      linarith

/-- Deciding `c ≤ e * sqrt q` when `0 ≤ e`. -/
lemma QSqrt.le_mul_sqrt_iff_of_nonneg (c e q : ℝ) (he : 0 ≤ e) :
    c ≤ e * Real.sqrt q ↔ c ≤ 0 ∨ c ^ 2 ≤ e ^ 2 * q := by
  have hrw : e * Real.sqrt q = Real.sqrt (e ^ 2 * q) := by
    rw [Real.sqrt_mul (sq_nonneg e), Real.sqrt_sq_eq_abs, abs_of_nonneg he]
  rw [hrw]
  constructor
  · intro h
    rcases le_or_lt c 0 with hc | hc
    · exact Or.inl hc
    · exact Or.inr ((Real.le_sqrt' hc).mp h)
  · rintro (hc | hc)
    · exact hc.trans (Real.sqrt_nonneg _)
    · rcases le_or_lt c 0 with hc0 | hc0
      · exact hc0.trans (Real.sqrt_nonneg _)
      · exact (Real.le_sqrt' hc0).mpr hc

/-- Deciding `c ≤ e * sqrt q` when `e < 0`. -/
lemma QSqrt.le_mul_sqrt_iff_of_neg (c e q : ℝ) (he : e < 0) :
    c ≤ e * Real.sqrt q ↔ c ≤ 0 ∧ e ^ 2 * q ≤ c ^ 2 := by
  have hrw : e * Real.sqrt q = -Real.sqrt (e ^ 2 * q) := by
    rw [Real.sqrt_mul (sq_nonneg e), Real.sqrt_sq_eq_abs, abs_of_neg he]
    ring
  rw [hrw]
  have h1 : c ≤ -Real.sqrt (e ^ 2 * q) ↔ Real.sqrt (e ^ 2 * q) ≤ -c := by
    constructor <;> intro h <;> linarith
  rw [h1, Real.sqrt_le_iff]
  constructor
  · rintro ⟨h2, h3⟩
    refine ⟨by linarith, by nlinarith⟩
  · rintro ⟨h2, h3⟩
    refine ⟨by linarith, by nlinarith⟩

/-- Rational-level decision procedure for `sqrt p ≤ d + sqrt q`, the shape of
every `QSqrt` comparison. -/
lemma QSqrt.leb_decide (p q d : ℤ) (hq : 0 ≤ q) :
    (((decide (0 ≤ d) || decide (d ^ 2 ≤ q)) &&
      (if 0 ≤ 2 * d then
        decide (p - d ^ 2 - q ≤ 0) || decide ((p - d ^ 2 - q) ^ 2 ≤ (2 * d) ^ 2 * q)
       else
        decide (p - d ^ 2 - q ≤ 0) && decide ((2 * d) ^ 2 * q ≤ (p - d ^ 2 - q) ^ 2))) = true)
    ↔ Real.sqrt (p : ℝ) ≤ (d : ℝ) + Real.sqrt (q : ℝ) := by
  have hq0 : (0 : ℝ) ≤ (q : ℝ) := by exact_mod_cast hq
  have hsq : ((d : ℝ) + Real.sqrt (q : ℝ)) ^ 2 =
      (d : ℝ) ^ 2 + 2 * (d : ℝ) * Real.sqrt (q : ℝ) + (q : ℝ) := by
    have h2 : Real.sqrt (q : ℝ) ^ 2 = (q : ℝ) := Real.sq_sqrt hq0
    nlinarith [h2]
  rw [Real.sqrt_le_iff, hsq, nonneg_add_sqrt_iff _ _ hq0]
  have hmain : ((p : ℝ) ≤ (d : ℝ) ^ 2 + 2 * (d : ℝ) * Real.sqrt (q : ℝ) + (q : ℝ)) ↔
      ((p : ℝ) - (d : ℝ) ^ 2 - (q : ℝ) ≤ 2 * (d : ℝ) * Real.sqrt (q : ℝ)) := by
    constructor <;> intro h <;> linarith
  simp only [Bool.and_eq_true, Bool.or_eq_true, decide_eq_true_eq]
  constructor
  · rintro ⟨h2, h1⟩
    have hsub : (p : ℝ) - (d : ℝ) ^ 2 - (q : ℝ) ≤ 2 * (d : ℝ) * Real.sqrt (q : ℝ) := by
      by_cases he : (0 : ℤ) ≤ 2 * d
      · rw [if_pos he] at h1
        have he' : (0 : ℝ) ≤ 2 * (d : ℝ) := by exact_mod_cast he
        rw [le_mul_sqrt_iff_of_nonneg _ _ _ he']
        simp only [Bool.or_eq_true, decide_eq_true_eq] at h1
        rcases h1 with h | h
        · refine Or.inl ?_
          have h' : (((p - d ^ 2 - q) : ℤ) : ℝ) ≤ 0 := by exact_mod_cast h
          push_cast at h'
          linarith
        · refine Or.inr ?_
          have h' : (((p - d ^ 2 - q) : ℤ) : ℝ) ^ 2 ≤ ((2 * d : ℤ) : ℝ) ^ 2 * (q : ℝ) := by
            exact_mod_cast h
          push_cast at h'
          nlinarith [h']
      · rw [if_neg he] at h1
        have he' : 2 * (d : ℝ) < 0 := by
          have hlt : (2 * d : ℤ) < 0 := lt_of_not_le he
          exact_mod_cast hlt
        rw [le_mul_sqrt_iff_of_neg _ _ _ he']
        simp only [Bool.and_eq_true, decide_eq_true_eq] at h1
        obtain ⟨ha, hb⟩ := h1
        have hb' : ((2 * d : ℤ) : ℝ) ^ 2 * (q : ℝ) ≤ (((p - d ^ 2 - q) : ℤ) : ℝ) ^ 2 := by
          exact_mod_cast hb
        have ha' : (((p - d ^ 2 - q) : ℤ) : ℝ) ≤ 0 := by exact_mod_cast ha
        push_cast at hb' ha'
        refine ⟨by linarith, by nlinarith [hb']⟩
    refine ⟨?_, hmain.mpr hsub⟩
    rcases h2 with h | h
    · exact Or.inl (by exact_mod_cast h)
    · exact Or.inr (by exact_mod_cast h)
  · rintro ⟨hOr, hle⟩
    have h1 := hmain.mp hle
    refine ⟨?_, ?_⟩
    · rcases hOr with h | h
      · exact Or.inl (by exact_mod_cast h)
      · exact Or.inr (by exact_mod_cast h)
    · by_cases he : (0 : ℤ) ≤ 2 * d
      · rw [if_pos he]
        have he' : (0 : ℝ) ≤ 2 * (d : ℝ) := by exact_mod_cast he
        rw [le_mul_sqrt_iff_of_nonneg _ _ _ he'] at h1
        simp only [Bool.or_eq_true, decide_eq_true_eq]
        rcases h1 with h | h
        · refine Or.inl ?_
          have h' : (((p - d ^ 2 - q) : ℤ) : ℝ) ≤ 0 := by push_cast; linarith
          exact_mod_cast h'
        · refine Or.inr ?_
          have h' : (((p - d ^ 2 - q) : ℤ) : ℝ) ^ 2 ≤ ((2 * d : ℤ) : ℝ) ^ 2 * (q : ℝ) := by
            push_cast
            nlinarith [h]
          exact_mod_cast h'
      · rw [if_neg he]
        have he' : 2 * (d : ℝ) < 0 := by
          have hlt : (2 * d : ℤ) < 0 := lt_of_not_le he
          exact_mod_cast hlt
        rw [le_mul_sqrt_iff_of_neg _ _ _ he'] at h1
        obtain ⟨ha, hb⟩ := h1
        simp only [Bool.and_eq_true, decide_eq_true_eq]
        refine ⟨?_, ?_⟩
        · have h' : (((p - d ^ 2 - q) : ℤ) : ℝ) ≤ 0 := by push_cast; linarith
          exact_mod_cast h'
        · have h' : ((2 * d : ℤ) : ℝ) ^ 2 * (q : ℝ) ≤ (((p - d ^ 2 - q) : ℤ) : ℝ) ^ 2 := by
            push_cast
            nlinarith [hb]
          exact_mod_cast h'

/-- The decidable order on `QSqrt` agrees with the order of the real numbers
represented: this justifies using `leb` for every Python float comparison in
the embedded search. -/
theorem QSqrt.leb_iff (x y : QSqrt) : leb x y = true ↔ val x ≤ val y := by
  have hvx : val x = x.a + Real.sqrt ((max x.r 0 : ℤ) : ℝ) := by
    rw [val, sqrt_intCast_max]
  have hvy : val y = y.a + Real.sqrt ((max y.r 0 : ℤ) : ℝ) := by
    rw [val, sqrt_intCast_max]
  have hmain : val x ≤ val y ↔
      Real.sqrt ((max x.r 0 : ℤ) : ℝ) ≤
        ((y.a - x.a : ℤ) : ℝ) + Real.sqrt ((max y.r 0 : ℤ) : ℝ) := by
    rw [hvx, hvy]
    push_cast
    constructor <;> intro h <;> linarith
  rw [hmain, leb]
  exact leb_decide (max x.r 0) (max y.r 0) (y.a - x.a) (le_max_right _ _)

/-- Strict-order counterpart of `leb_iff`. -/
theorem QSqrt.ltb_iff (x y : QSqrt) : ltb x y = true ↔ val x < val y := by
  rw [ltb, Bool.not_eq_true', ← Bool.not_eq_true, leb_iff]
  exact not_le

/-- Equality counterpart of `leb_iff`. -/
theorem QSqrt.eqb_iff (x y : QSqrt) : eqb x y = true ↔ val x = val y := by
  rw [eqb, Bool.and_eq_true, leb_iff, leb_iff]
  constructor
  · rintro ⟨h1, h2⟩
    exact le_antisymm h1 h2
  · intro h
    exact ⟨le_of_eq h, ge_of_eq h⟩

/-- Value of `intAdd`: it really is `n + val x`. -/
theorem QSqrt.intAdd_val (n : ℤ) (x : QSqrt) :
    (QSqrt.intAdd n x).val = (n : ℝ) + x.val := by
  rw [QSqrt.val, QSqrt.val, QSqrt.intAdd]
  push_cast
  ring

/-- C1.  The claim says `findNeighbors` excludes every cell whose blocked
flag is set.  It does not: on the 2×2 grid whose cell (0,1) is blocked, the
neighbours of (0,0) are exactly [0,1], [1,0], [1,1] — the blocked cell (0,1)
is returned.  The source's filter `cSpace[x][y] != 1` compares the cell (a
list) with the integer 1, which is true for every cell. -/
theorem findNeighbors_returns_blocked_cells :
    (cellAt2 gridB01 0 1).flag = 1 ∧
      findNeighbors gridB01 [0, 0] = [[0, 1], [1, 0], [1, 1]] := by
  decide

/-- C6.  The claim says a coordination space whose goal cell is blocked makes
`PathSearch` return "no path".  On the 2×2 grid with only the goal (1,1)
blocked, the search instead returns success with the goal's coordinates: the
goal test runs on raw neighbour coordinates, and the blocked-cell filter in
`findNeighbors` is broken (see C1). -/
theorem aStarSearch_blocked_goal_found :
    (cellAt2 gridGoalBlocked 1 1).flag = 1 ∧
      aStarSearch gridGoalBlocked 5 = some (SearchResult.found [1, 1]) := by
  decide

/-- C5, counterexample.  The claim says `h(node)` is the Euclidean distance
to the cell of maximum valid index in each of the first two dimensions.  On
a 2×2 grid the maximum valid index is (1,1), so the claim gives h([1,1]) = 0;
the code gives sqrt 2, measuring to (2,2) = (len, len) instead. -/
theorem costToGo_not_dist_to_max_index :
    (costToGo gridFree [1, 1]).val ≠ specEuclidDist 1 1 1 1 := by
  have h1 : (costToGo gridFree [1, 1]).val = Real.sqrt 2 := by
    rw [costToGo, distTwoPointsIn3D, QSqrt.val]
    norm_num [gridFree]
  have h2 : specEuclidDist 1 1 1 1 = 0 := by
    rw [specEuclidDist]
    norm_num
  rw [h1, h2]
  have : (0 : ℝ) < Real.sqrt 2 := Real.sqrt_pos.mpr (by norm_num)
  linarith

/-- C5, amended.  The heuristic value of a point is the Euclidean distance
from its first two coordinates to the point whose coordinates are the
dimension lengths `(len(cSpace), len(cSpace[0]))` — one past the maximum
valid index in each of the first two dimensions. -/
theorem costToGo_eq_dist_to_lengths (cs : Grid) (point : List ℤ) :
    (costToGo cs point).val =
      specEuclidDist (point.getD 0 0) (point.getD 1 0)
        (cs.length : ℤ) ((List.getD cs 0 []).length : ℤ) := by
  rw [costToGo, distTwoPointsIn3D, QSqrt.val, specEuclidDist]
  push_cast
  ring_nf

/-! The real semantics of the Python node order, for claim C4. -/

/-- The boolean list order computes `List.Lex (· < ·)`, which is the `<` of
the linear order on `List ℤ` (Python's list comparison). -/
lemma listLtbZ_iff : ∀ x y : List ℤ, listLtbZ x y = true ↔ x < y
  | [], [] => by
    constructor
    · intro h
      simp [listLtbZ] at h
    · intro h
      cases h
  | [], b :: bs => by
    constructor
    · intro _
      exact List.Lex.nil
    · intro _
      rfl
  | a :: as, [] => by
    constructor
    · intro h
      simp [listLtbZ] at h
    · intro h
      cases h
  | a :: as, b :: bs => by
    rw [listLtbZ]
    split_ifs with h1 h2
    · simp only [true_iff]
      exact List.Lex.rel h1
    · simp only [false_iff]
      intro h
      cases h with
      | rel hr => exact h1 hr
      | cons ht => exact lt_irrefl _ h2
    · have heq : a = b := le_antisymm (not_lt.mp h2) (not_lt.mp h1)
      subst heq
      rw [listLtbZ_iff as bs]
      constructor
      · intro h
        exact List.Lex.cons h
      · intro h
        cases h with
        | rel hr => exact absurd hr (lt_irrefl a)
        | cons ht => exact ht

/-- Unfolded form of `realNodeLt`. -/
lemma realNodeLt_unfold (m n : Node) : realNodeLt m n ↔
    (m.state < n.state ∨ (m.state = n.state ∧
      (m.g < n.g ∨ (m.g = n.g ∧
        (m.h.val < n.h.val ∨ (m.h.val = n.h.val ∧
          (m.f.val < n.f.val ∨ (m.f.val = n.f.val ∧
            (m.parent < n.parent ∨ (m.parent = n.parent ∧
              m.coords < n.coords)))))))))) := by
  rw [realNodeLt, nodeKey, nodeKey]
  simp only [Prod.Lex.lt_iff]

/-- The computable node comparison agrees with the real-valued Python order. -/
theorem nodeLtb_iff (m n : Node) : nodeLtb m n = true ↔ realNodeLt m n := by
  rw [realNodeLt_unfold, nodeLtb]
  split_ifs with h1 h2 h3 h4 h5 h6
  · simp only [decide_eq_true_eq]
    constructor
    · exact fun h => Or.inl h
    · rintro (h | ⟨heq, _⟩)
      · exact h
      · exact absurd heq h1
  · have hs : m.state = n.state := not_not.mp h1
    simp only [decide_eq_true_eq]
    constructor
    · intro h
      exact Or.inr ⟨hs, Or.inl h⟩
    · rintro (h | ⟨_, (h | ⟨heg, _⟩)⟩)
      · rw [hs] at h
        exact absurd h (lt_irrefl _)
      · exact h
      · exact absurd heg h2
  · have hs : m.state = n.state := not_not.mp h1
    have hg : m.g = n.g := not_not.mp h2
    have hh : m.h.val ≠ n.h.val := by
      intro heq
      have h3f : QSqrt.eqb m.h n.h = false := by simpa using h3
      rw [(QSqrt.eqb_iff m.h n.h).mpr heq] at h3f
      cases h3f
    rw [QSqrt.ltb_iff]
    constructor
    · intro h
      exact Or.inr ⟨hs, Or.inr ⟨hg, Or.inl h⟩⟩
    · rintro (h | ⟨_, (h | ⟨_, (h | ⟨heq, _⟩)⟩)⟩)
      · rw [hs] at h
        exact absurd h (lt_irrefl _)
      · rw [hg] at h
        exact absurd h (lt_irrefl _)
      · exact h
      · exact absurd heq hh
  · have hs : m.state = n.state := not_not.mp h1
    have hg : m.g = n.g := not_not.mp h2
    have hh : m.h.val = n.h.val := by
      have h3t : QSqrt.eqb m.h n.h = true := by simpa using h3
      exact (QSqrt.eqb_iff m.h n.h).mp h3t
    have hf : m.f.val ≠ n.f.val := by
      intro heq
      have h4f : QSqrt.eqb m.f n.f = false := by simpa using h4
      rw [(QSqrt.eqb_iff m.f n.f).mpr heq] at h4f
      cases h4f
    rw [QSqrt.ltb_iff]
    constructor
    · intro h
      exact Or.inr ⟨hs, Or.inr ⟨hg, Or.inr ⟨hh, Or.inl h⟩⟩⟩
    · rintro (h | ⟨_, (h | ⟨_, (h | ⟨_, (h | ⟨heq, _⟩)⟩)⟩)⟩)
      · rw [hs] at h
        exact absurd h (lt_irrefl _)
      · rw [hg] at h
        exact absurd h (lt_irrefl _)
      · rw [hh] at h
        exact absurd h (lt_irrefl _)
      · exact h
      · exact absurd heq hf
  · have hs : m.state = n.state := not_not.mp h1
    have hg : m.g = n.g := not_not.mp h2
    have hh : m.h.val = n.h.val := by
      have h3t : QSqrt.eqb m.h n.h = true := by simpa using h3
      exact (QSqrt.eqb_iff m.h n.h).mp h3t
    have hf : m.f.val = n.f.val := by
      have h4t : QSqrt.eqb m.f n.f = true := by simpa using h4
      exact (QSqrt.eqb_iff m.f n.f).mp h4t
    rw [listLtbZ_iff]
    constructor
    · intro h
      exact Or.inr ⟨hs, Or.inr ⟨hg, Or.inr ⟨hh, Or.inr ⟨hf, Or.inl h⟩⟩⟩⟩
    · rintro (h | ⟨_, (h | ⟨_, (h | ⟨_, (h | ⟨_, (h | ⟨heq, _⟩)⟩)⟩)⟩)⟩)
      · rw [hs] at h
        exact absurd h (lt_irrefl _)
      · rw [hg] at h
        exact absurd h (lt_irrefl _)
      · rw [hh] at h
        exact absurd h (lt_irrefl _)
      · rw [hf] at h
        exact absurd h (lt_irrefl _)
      · exact h
      · exact absurd heq h5
  · have hs : m.state = n.state := not_not.mp h1
    have hg : m.g = n.g := not_not.mp h2
    have hh : m.h.val = n.h.val := by
      have h3t : QSqrt.eqb m.h n.h = true := by simpa using h3
      exact (QSqrt.eqb_iff m.h n.h).mp h3t
    have hf : m.f.val = n.f.val := by
      have h4t : QSqrt.eqb m.f n.f = true := by simpa using h4
      exact (QSqrt.eqb_iff m.f n.f).mp h4t
    have hp : m.parent = n.parent := not_not.mp h5
    rw [listLtbZ_iff]
    constructor
    · intro h
      exact Or.inr ⟨hs, Or.inr ⟨hg, Or.inr ⟨hh, Or.inr ⟨hf, Or.inr ⟨hp, h⟩⟩⟩⟩⟩
    · rintro (h | ⟨_, (h | ⟨_, (h | ⟨_, (h | ⟨_, (h | ⟨_, h⟩)⟩)⟩)⟩)⟩)
      · rw [hs] at h
        exact absurd h (lt_irrefl _)
      · rw [hg] at h
        exact absurd h (lt_irrefl _)
      · rw [hh] at h
        exact absurd h (lt_irrefl _)
      · rw [hf] at h
        exact absurd h (lt_irrefl _)
      · rw [hp] at h
        exact absurd h (lt_irrefl _)
      · exact h
  · have hs : m.state = n.state := not_not.mp h1
    have hg : m.g = n.g := not_not.mp h2
    have hh : m.h.val = n.h.val := by
      have h3t : QSqrt.eqb m.h n.h = true := by simpa using h3
      exact (QSqrt.eqb_iff m.h n.h).mp h3t
    have hf : m.f.val = n.f.val := by
      have h4t : QSqrt.eqb m.f n.f = true := by simpa using h4
      exact (QSqrt.eqb_iff m.f n.f).mp h4t
    have hp : m.parent = n.parent := not_not.mp h5
    have hc : m.coords = n.coords := not_not.mp h6
    constructor
    · intro h
      cases h
    · rintro (h | ⟨_, (h | ⟨_, (h | ⟨_, (h | ⟨_, (h | ⟨_, h⟩)⟩)⟩)⟩)⟩)
      · rw [hs] at h
        exact absurd h (lt_irrefl _)
      · rw [hg] at h
        exact absurd h (lt_irrefl _)
      · rw [hh] at h
        exact absurd h (lt_irrefl _)
      · rw [hf] at h
        exact absurd h (lt_irrefl _)
      · rw [hp] at h
        exact absurd h (lt_irrefl _)
      · rw [hc] at h
        exact absurd h (lt_irrefl _)

/-- A nonempty list always pops something. -/
lemma popMin_cons_isSome (x : Node) (xs : List Node) : (popMin (x :: xs)).isSome := by
  rw [popMin]
  split
  · rfl
  · split <;> rfl

/-- C4, amended.  `heapq.heappop` removes a node that is least in the Python
ordering of the raw node lists — lexicographic on (cell flag, g, h, f,
parent, coordinates), floats compared by value — not a node of least `f`:
no node of the open list is strictly below the popped one in that order. -/
theorem popMin_pops_lex_least (l : List Node) (q : Node) (rest : List Node)
    (hpop : popMin l = some (q, rest)) : ∀ n ∈ l, ¬ realNodeLt n q := by
  induction l generalizing q rest with
  | nil => cases hpop
  | cons x xs ih =>
    rw [popMin] at hpop
    intro n hn
    split at hpop
    · rename_i hxs
      simp only [Option.some.injEq, Prod.mk.injEq] at hpop
      obtain ⟨rfl, rfl⟩ := hpop
      have hxe : xs = [] := by
        cases xs with
        | nil => rfl
        | cons y ys =>
          have hs := popMin_cons_isSome y ys
          rw [hxs] at hs
          cases hs
      subst hxe
      simp only [List.mem_singleton] at hn
      subst hn
      rw [realNodeLt]
      exact lt_irrefl _
    · rename_i m r0 hxs
      have ihm := ih m r0 hxs
      split at hpop
      · rename_i hml
        simp only [Option.some.injEq, Prod.mk.injEq] at hpop
        obtain ⟨rfl, rfl⟩ := hpop
        rcases List.mem_cons.mp hn with heq | hmem
        · rw [heq]
          have hmx : realNodeLt m x := (nodeLtb_iff m x).mp hml
          rw [realNodeLt] at hmx ⊢
          exact lt_asymm hmx
        · exact ihm n hmem
      · rename_i hml
        simp only [Option.some.injEq, Prod.mk.injEq] at hpop
        obtain ⟨rfl, rfl⟩ := hpop
        rcases List.mem_cons.mp hn with heq | hmem
        · rw [heq, realNodeLt]
          exact lt_irrefl _
        · have h1 : ¬ realNodeLt n m := ihm n hmem
          have h2 : ¬ realNodeLt m x := fun hc => hml ((nodeLtb_iff m x).mpr hc)
          rw [realNodeLt] at h1 h2 ⊢
          exact not_lt.mpr ((not_lt.mp h2).trans (not_lt.mp h1))

/-- C4, counterexample.  On `grid23` the first loop iteration leaves OPEN
holding exactly `nodeA`, `nodeB`, `nodeC`; the next iteration pops `nodeA`
(`f = 1 + sqrt 8`) although `nodeC` (`f = 1 + sqrt 5`) has strictly smaller
`f`: the heap orders the raw node lists by cell flag first, then `g`, then
`h`, so the node removed is not one of minimal `f = g + h`. -/
theorem search_pop_not_min_f :
    searchStep grid23 ⟨[startNode grid23], []⟩ =
        StepRes.next ⟨[nodeA, nodeB, nodeC], [startNode grid23]⟩ ∧
      popMin [nodeA, nodeB, nodeC] = some (nodeA, [nodeB, nodeC]) ∧
      nodeC ∈ [nodeA, nodeB, nodeC] ∧ nodeC.f.val < nodeA.f.val := by
  refine ⟨by decide, by decide, by decide, ?_⟩
  rw [nodeA, nodeC, QSqrt.val, QSqrt.val]
  have h : Real.sqrt ((5 : ℤ) : ℝ) < Real.sqrt ((8 : ℤ) : ℝ) := by
    apply Real.sqrt_lt_sqrt
    · norm_num
    · norm_num
  norm_num at h ⊢

/-- Witness for C4's amended theorem at the state reached on `grid23`:
`nodeC` is not below the popped `nodeA` in the Python node order. -/
theorem popMin_pops_lex_least_witness : ¬ realNodeLt nodeC nodeA :=
  popMin_pops_lex_least [nodeA, nodeB, nodeC] nodeA [nodeB, nodeC] (by decide)
    nodeC (by decide)

/-- Heuristic values are nonnegative: they are square roots. -/
lemma costToGo_val_nonneg (cs : Grid) (point : List ℤ) :
    0 ≤ (costToGo cs point).val := by
  rw [costToGo, distTwoPointsIn3D, QSqrt.val]
  have h := Real.sqrt_nonneg
    ((((cs.length : ℤ) - point.getD 0 0) ^ 2 +
      (((List.getD cs 0 []).length : ℤ) - point.getD 1 0) ^ 2 : ℤ) : ℝ)
  push_cast at h ⊢
  linarith

/-- C3.  A candidate successor is discarded — `skipSuccessor` returns true on
OPEN or on CLOSED — iff one of those lists holds a node with the same
coordinates and an equal-or-better `g`.  The code compares slot 3 (`f`), but
for search-produced nodes `f = g + h(coords)` with `h` a function of the
coordinates alone, so on equal coordinates the `f` comparison is the `g`
comparison; the start node (`f` slot 0, `g = 0`) also discards exactly when
its `g = 0` is equal-or-better.  The hypotheses state that every listed node
is of one of those two shapes. -/
theorem skipSuccessor_iff_better_g (cs : Grid) (openL closedL : List Node) (s : Node)
    (hwf : ∀ n ∈ openL ++ closedL,
      n.f.val = (n.g : ℝ) + (costToGo cs n.coords).val ∨ (n.g = 0 ∧ n.f.val = 0))
    (hsf : s.f.val = (s.g : ℝ) + (costToGo cs s.coords).val)
    (hsg : 0 ≤ s.g) :
    (skipSuccessor openL s || skipSuccessor closedL s) = true ↔
      ∃ n ∈ openL ++ closedL, n.coords = s.coords ∧ n.g ≤ s.g := by
  have hany : (skipSuccessor openL s || skipSuccessor closedL s) = true ↔
      ∃ n ∈ openL ++ closedL, n.coords = s.coords ∧ n.f.val ≤ s.f.val := by
    simp only [skipSuccessor, Bool.or_eq_true, List.any_eq_true, Bool.and_eq_true,
      beq_iff_eq, QSqrt.leb_iff, List.mem_append]
    constructor
    · rintro (⟨n, hmem, hc, hle⟩ | ⟨n, hmem, hc, hle⟩)
      · exact ⟨n, Or.inl hmem, hc, hle⟩
      · exact ⟨n, Or.inr hmem, hc, hle⟩
    · rintro ⟨n, hmem | hmem, hc, hle⟩
      · exact Or.inl ⟨n, hmem, hc, hle⟩
      · exact Or.inr ⟨n, hmem, hc, hle⟩
  rw [hany]
  constructor
  · rintro ⟨n, hmem, hceq, hle⟩
    refine ⟨n, hmem, hceq, ?_⟩
    rcases hwf n hmem with hn | ⟨hg0, _⟩
    · rw [hn, hsf, hceq] at hle
      have : (n.g : ℝ) ≤ (s.g : ℝ) := by linarith
      exact_mod_cast this
    · rw [hg0]
      exact hsg
  · rintro ⟨n, hmem, hceq, hgle⟩
    refine ⟨n, hmem, hceq, ?_⟩
    rcases hwf n hmem with hn | ⟨_, hf0⟩
    · rw [hn, hsf, hceq]
      have : (n.g : ℝ) ≤ (s.g : ℝ) := by exact_mod_cast hgle
      linarith
    · rw [hf0, hsf]
      have h1 : (0 : ℝ) ≤ (s.g : ℝ) := by exact_mod_cast hsg
      have h2 := costToGo_val_nonneg cs s.coords
      linarith

/-- Witness for C3 with OPEN = [nodeA], CLOSED = [start node of `grid23`]
and candidate `nodeA2`: the discard test is equivalent to the existence of a
same-coordinates node with equal-or-better `g`. -/
theorem skipSuccessor_iff_better_g_witness :
    ((skipSuccessor [nodeA] nodeA2 || skipSuccessor [startNode grid23] nodeA2) = true ↔
      ∃ n ∈ [nodeA] ++ [startNode grid23], n.coords = nodeA2.coords ∧ n.g ≤ nodeA2.g) := by
  refine skipSuccessor_iff_better_g grid23 [nodeA] [startNode grid23] nodeA2 ?_ ?_ (by decide)
  · intro n hn
    simp only [List.mem_append, List.mem_singleton] at hn
    rcases hn with rfl | rfl
    · left
      rw [nodeA, QSqrt.val, costToGo, distTwoPointsIn3D, QSqrt.val]
      norm_num [grid23]
    · right
      refine ⟨rfl, ?_⟩
      rw [startNode, grid23]
      norm_num [cellAt2, freeCell, QSqrt.val]
  · rw [nodeA2, QSqrt.val, costToGo, distTwoPointsIn3D, QSqrt.val]
    norm_num [grid23]

open Classical in
/-- Indexing the builder's output at an in-range configuration yields the
cell computed from exactly that configuration. -/
lemma cellOf_createCoordinationSpace (robots : List (List RobotState)) (rSize : ℝ) :
    ∀ (dims rest config : List ℕ), dims ≠ [] → rest.length = dims.length →
      (∀ k, k < dims.length → rest.getD k 0 < dims.getD k 0) →
      cellOf (createCoordinationSpace robots rSize dims config) rest =
        some (if collisionFound robots rSize (config ++ rest) then blockedCell
          else freeCell)
  | [], _, _, hne, _, _ => absurd rfl hne
  | [d], rest, config, _, hlen, hvalid => by
    have h1 : rest.length = 1 := by simpa using hlen
    obtain ⟨i, rfl⟩ : ∃ i, rest = [i] := by
      cases rest with
      | nil => cases h1
      | cons a t =>
        cases t with
        | nil => exact ⟨a, rfl⟩
        | cons b t2 => simp at h1
    have hi : i < d := by
      have := hvalid 0 (by norm_num)
      simpa using this
    rw [createCoordinationSpace, cellOf]
    rw [List.getElem?_map, List.getElem?_range hi]
    rfl
  | d :: d2 :: ds, rest, config, hne, hlen, hvalid => by
    obtain ⟨i, rest', rfl⟩ : ∃ i rest', rest = i :: rest' := by
      cases rest with
      | nil => cases hlen
      | cons a t => exact ⟨a, t, rfl⟩
    have hi : i < d := by
      have := hvalid 0 (by simp)
      simpa using this
    rw [createCoordinationSpace, cellOf]
    rw [List.getElem?_map, List.getElem?_range hi]
    have hrec := cellOf_createCoordinationSpace robots rSize (d2 :: ds) rest'
      (config ++ [i]) (by simp) (by simpa using hlen)
      (by
        intro k hk
        have := hvalid (k + 1) (by simpa using Nat.succ_lt_succ hk)
        simpa using this)
    simp only [Option.map_some', Option.some_bind]
    rw [hrec, List.append_assoc]
    rfl

open Classical in
/-- C10.  For every in-range joint configuration of the built coordination
space, the cell's flag is 1 iff some unordered pair of robots collides at
the configured states — collision being strict inequality
`distance < 2 * radius` per `checkCollisions` — and 0 iff no pair does. -/
theorem createMatrix_blocked_iff (robots : List (List RobotState)) (rSize : ℝ)
    (config : List ℕ) (hne : robots ≠ [])
    (hlen : config.length = robots.length)
    (hvalid : ∀ k, k < robots.length → config.getD k 0 < (robots.getD k []).length) :
    ∃ c, cellOf (createMatrix robots rSize) config = some c ∧
      ((c.flag = 1 ↔ ∃ A1 A2, A1 < A2 ∧ A2 < robots.length ∧
          checkCollisions robots rSize A1 (config.getD A1 0) A2 (config.getD A2 0)) ∧
        (c.flag = 0 ↔ ¬ ∃ A1 A2, A1 < A2 ∧ A2 < robots.length ∧
          checkCollisions robots rSize A1 (config.getD A1 0) A2 (config.getD A2 0))) := by
  have hdne : robots.map List.length ≠ [] := by simpa using hne
  have hlen' : config.length = (robots.map List.length).length := by simpa using hlen
  have hvalid' : ∀ k, k < (robots.map List.length).length →
      config.getD k 0 < (robots.map List.length).getD k 0 := by
    intro k hk
    rw [List.length_map] at hk
    have h := hvalid k hk
    have hmap : (robots.map List.length).getD k 0 = (robots.getD k []).length := by
      simpa using (List.getD_map robots ([] : List RobotState) List.length :
        (robots.map List.length).getD k [].length = (robots.getD k []).length)
    rw [hmap]
    exact h
  have hmain := cellOf_createCoordinationSpace robots rSize (robots.map List.length)
    config [] hdne hlen' hvalid'
  rw [createMatrix]
  simp only [List.nil_append] at hmain
  have hiff : collisionFound robots rSize config ↔
      ∃ A1 A2, A1 < A2 ∧ A2 < robots.length ∧
        checkCollisions robots rSize A1 (config.getD A1 0) A2 (config.getD A2 0) := by
    rw [collisionFound, hlen]
  by_cases hcol : collisionFound robots rSize config
  · refine ⟨blockedCell, ?_, ?_, ?_⟩
    · rw [hmain, if_pos hcol]
    · exact iff_of_true rfl (hiff.mp hcol)
    · refine iff_of_false (by norm_num [blockedCell]) (not_not_intro (hiff.mp hcol))
  · refine ⟨freeCell, ?_, ?_, ?_⟩
    · rw [hmain, if_neg hcol]
    · refine iff_of_false (by norm_num [freeCell]) ?_
      intro hex
      exact hcol (hiff.mpr hex)
    · refine iff_of_true rfl ?_
      intro hex
      exact hcol (hiff.mpr hex)

/-- Witness for C10 with two one-state robots standing at the same point
(radius 1): the hypotheses hold at the configuration (0, 0). -/
theorem createMatrix_blocked_iff_witness :
    ∃ c, cellOf (createMatrix [[⟨1, 0, 0, 0⟩], [⟨1, 0, 0, 0⟩]] 1) [0, 0] = some c ∧
      ((c.flag = 1 ↔ ∃ A1 A2, A1 < A2 ∧ A2 < 2 ∧
          checkCollisions [[⟨1, 0, 0, 0⟩], [⟨1, 0, 0, 0⟩]] 1
            A1 ([0, 0].getD A1 0) A2 ([0, 0].getD A2 0)) ∧
        (c.flag = 0 ↔ ¬ ∃ A1 A2, A1 < A2 ∧ A2 < 2 ∧
          checkCollisions [[⟨1, 0, 0, 0⟩], [⟨1, 0, 0, 0⟩]] 1
            A1 ([0, 0].getD A1 0) A2 ([0, 0].getD A2 0))) := by
  have h := createMatrix_blocked_iff [[⟨1, 0, 0, 0⟩], [⟨1, 0, 0, 0⟩]] 1 [0, 0]
    (by simp) (by simp)
    (by
      intro k hk
      have hk2 : k < 2 := by simpa using hk
      interval_cases k <;> simp)
  simpa using h

/-- C7.  On the all-free 2×2 space the search "succeeds", but the value it
returns is the raw two-element coordinate list `[1, 1]`, not a node with a
parent chain; `addPath` then raises `IndexError` at `parent[5]` before
marking anything.  On the failure value (a string) `addPath` enters the loop
(`"could not find path"[5]` is a space, not `[0, 0]`) and raises `TypeError`
at `5[0]`.  Either way path reconstruction crashes on an out-of-range or
ill-typed indexing. -/
theorem aStarSearch_result_breaks_addPath :
    aStarSearch gridFree 5 = some (SearchResult.found [1, 1]) ∧
      addPath (pyOfGrid gridFree) (pyOfSearchResult (SearchResult.found [1, 1])) 9 =
        AddPathRes.err PyErr.indexError ∧
      addPath (pyOfGrid gridFree) (pyOfSearchResult SearchResult.noPath) 9 =
        AddPathRes.err PyErr.typeError := by
  refine ⟨by decide, by rfl, by rfl⟩

/-- C2.  The cell-marking statement of `addPath` assigns 2 to element 0 of
the cell — the slot holding the builder's blocked flag, not a search-scoped
field: on a free cell it overwrites the builder's 0 with 2. -/
theorem addPath_marking_writes_flag_slot :
    freeCell.flag = 0 ∧
      pySetIndex (pyOfCell freeCell) (.vInt 0) (.vInt 2) =
        Except.ok (pyOfCell { freeCell with flag := 2 }) := by
  constructor
  · rfl
  · rfl

/-- C9.  On a zero-arc-length trajectory the interval count is
`floor(0 / 0.5) = 0` and `intervalLength = length / intervals` divides by
zero; on a zero-speed trajectory `length / (speed * 0.5)` divides by zero.
In both cases the source raises an unhandled `ZeroDivisionError` instead of
an `InvalidTrajectory` condition. -/
theorem normalizeTrajectory_zero_division :
    normalizeTrajectory 9 trajZero = Except.error PyErr.zeroDivisionError ∧
      normalizeTrajectory 9 trajV0 = Except.error PyErr.zeroDivisionError := by
  constructor
  · have hT : findTrajectoryLength trajZero = 0 := by
      norm_num [findTrajectoryLength, trajLengthGo, trajZero, Real.sqrt_zero]
    simp only [normalizeTrajectory]
    rw [hT]
    norm_num [trajZero]
  · simp only [normalizeTrajectory]
    norm_num [trajV0]

/-- C8.  Resampling the straight trajectory (0,0)→(1,0) at speed 1 (total
arc length 1, interval 1/2) yields the points (0,0) and (1/2,0): the last
point of the result is not the original endpoint (1,0) — the strict `>` in
the catch-up loop never emits the point at arc length exactly 1 — and the
resampled arc length is 1/2, not 1. -/
theorem normalizeTrajectory_drops_endpoint :
    normalizeTrajectory 9 trajLine = Except.ok [⟨1, 0, 0, 0⟩, ⟨1, 1 / 2, 0, 0⟩] ∧
      trajLine.getLast? = some ⟨1, 1, 0, 0⟩ ∧
      ([⟨1, 0, 0, 0⟩, ⟨1, 1 / 2, 0, 0⟩] : List RobotState).getLast? =
        some ⟨1, 1 / 2, 0, 0⟩ ∧
      ((1 : ℝ) / 2 ≠ 1) ∧
      findTrajectoryLength trajLine = 1 ∧
      findTrajectoryLength [⟨1, 0, 0, 0⟩, ⟨1, 1 / 2, 0, 0⟩] = 1 / 2 := by
  have hT : findTrajectoryLength trajLine = 1 := by
    norm_num [findTrajectoryLength, trajLengthGo, trajLine, Real.sqrt_one, Real.sqrt_zero]
  refine ⟨?_, by rfl, by rfl, by norm_num, hT, ?_⟩
  · simp only [normalizeTrajectory]
    rw [hT]
    norm_num [trajLine, normLoop, emitLoop, Real.sqrt_one, Real.sqrt_zero]
  · norm_num [findTrajectoryLength, trajLengthGo, Real.sqrt_zero]
    rw [show (4 : ℝ) = 2 ^ 2 by norm_num, Real.sqrt_sq (by norm_num)]
    norm_num
